import Mathlib

/-!
Verification of the Markdown-subset-to-PDF rendering core of the
ads-strategy-tool repository (src/main.py), as a shallow embedding.

Strings are modelled as `List Char` (Python `str` is a sequence of code
points); the PDF layout calls emitted by `create_pdf_report` are modelled
as an explicit list of operations (`POp`), so that "skip" versus "blank"
behaviour and classification order are observable.
-/

set_option maxRecDepth 16384

namespace AdsTool

/-- Python `str.replace(pat, repl)`: leftmost, non-overlapping, all
occurrences.  Structural recursion on a fuel argument so that concrete
instances reduce by `decide`; the fuel is initialised to the length of the
subject string, which suffices because every step consumes at least one
character of the subject (the patterns used in the program are nonempty;
an empty pattern is treated as matching nowhere). -/
def replaceFuel (pat repl : List Char) : Nat → List Char → List Char
  | _, [] => []
  | 0, s => s
  | fuel + 1, c :: rest =>
    if pat.isPrefixOf (c :: rest) && !pat.isEmpty then
      repl ++ replaceFuel pat repl fuel ((c :: rest).drop pat.length)
    else
      c :: replaceFuel pat repl fuel rest

/-- Python `str.replace` on char lists. -/
def replaceList (pat repl s : List Char) : List Char :=
  replaceFuel pat repl s.length s

/-- Python's substring test `pat in s`. -/
def containsSub (pat : List Char) : List Char → Bool
  | [] => pat.isEmpty
  | c :: rest => pat.isPrefixOf (c :: rest) || containsSub pat rest

/-- Python whitespace for `str.strip()` (space, tab, LF, VT, FF, CR). -/
def pyIsSpace (c : Char) : Bool :=
  c == ' ' || c == '\t' || c == '\n' || c == Char.ofNat 11 ||
    c == Char.ofNat 12 || c == '\r'

/-- Remove the maximal trailing run of characters satisfying `p`. -/
def rtrim (p : Char → Bool) : List Char → List Char
  | [] => []
  | c :: rest =>
    let r := rtrim p rest
    if r.isEmpty && p c then [] else c :: r

/-- Python `str.strip()`: drop leading and trailing whitespace. -/
def stripList (s : List Char) : List Char :=
  rtrim pyIsSpace (s.dropWhile pyIsSpace)

/-- Python `str.lstrip(ch)`: drop every leading occurrence of `ch`. -/
def lstripChar (ch : Char) (s : List Char) : List Char :=
  s.dropWhile (· == ch)

/-- The `replacements` dict of `clean_for_pdf` (src/main.py:30-36), in
insertion order.  The first seven keys are the mis-decoded ("mojibake")
forms of smart quotes, dashes and the ellipsis exactly as they appear in
the source: each starts with U+201A followed by U+00C4 and a third
character. -/
def replacements : List (List Char × List Char) :=
  [ ([Char.ofNat 0x201A, Char.ofNat 0xC4, Char.ofNat 0xF4], ['\'']),
    ([Char.ofNat 0x201A, Char.ofNat 0xC4, Char.ofNat 0xF2], ['\'']),
    ([Char.ofNat 0x201A, Char.ofNat 0xC4, Char.ofNat 0xFA], ['\"']),
    ([Char.ofNat 0x201A, Char.ofNat 0xC4, Char.ofNat 0xF9], ['\"']),
    ([Char.ofNat 0x201A, Char.ofNat 0xC4, Char.ofNat 0xEC], ['-']),
    ([Char.ofNat 0x201A, Char.ofNat 0xC4, Char.ofNat 0xEE], ['-']),
    ([Char.ofNat 0x201A, Char.ofNat 0xC4, Char.ofNat 0xB6], ['.', '.', '.']),
    (['*', '*'], []),
    (['_', '_'], []),
    (['#', '#'], []),
    (['#', '#', '#'], []),
    (['#'], []),
    (['`'], []) ]

/-- The replacement loop of `clean_for_pdf` (src/main.py:37-38). -/
def applyReplacements (s : List Char) : List Char :=
  replacements.foldl (fun t pr => replaceList pr.1 pr.2 t) s

/-- `text.encode('latin-1', 'ignore').decode('latin-1')`
(src/main.py:41): keep exactly the characters with code point ≤ 255. -/
def latin1Filter (s : List Char) : List Char :=
  s.filter (fun c => c.toNat ≤ 255)

/-- `clean_for_pdf` (src/main.py:25-41), string branch: apply the
replacement table in order, then drop the characters latin-1 cannot
encode. -/
def clean_for_pdf (s : String) : String :=
  String.mk (latin1Filter (applyReplacements s.data))

/-- A Python value as seen by `clean_for_pdf`'s `isinstance(text, str)`
test: either a string, an integer, or some other object carrying the
result of its `str()` conversion. -/
inductive PyVal where
  | str (s : String)
  | int (n : Int)
  | obj (strConv : String)
deriving DecidableEq, Repr

/-- Python `str(v)`. -/
def pyStr : PyVal → String
  | .str s => s
  | .int n => toString n
  | .obj s => s

/-- `clean_for_pdf` (src/main.py:25-41) with its dynamic-typing guard:
a non-string argument is returned as `str(value)` immediately
(src/main.py:26-27), before any replacement or encoding step. -/
def clean_for_pdf_dyn (v : PyVal) : String :=
  match v with
  | .str s => clean_for_pdf s
  | _ => pyStr v

/-- The classification a line receives in the loop body of
`create_pdf_report` (src/main.py:88-117). -/
inductive LineClass where
  | skip | blank | heading | bullet | paragraph
deriving DecidableEq, Repr

/-- `clean_line = clean_for_pdf(line.strip())` (src/main.py:89), at the
char-list level. -/
def cleanLineOf (line : List Char) : List Char :=
  latin1Filter (applyReplacements (stripList line))

/-- Condition of src/main.py:92:
`"---" in clean_line or clean_line.startswith("|")`. -/
def skipCond (line : List Char) : Bool :=
  containsSub ['-', '-', '-'] (cleanLineOf line) ||
    ['|'].isPrefixOf (cleanLineOf line)

/-- Condition of src/main.py:95: `not clean_line`. -/
def blankCond (line : List Char) : Bool :=
  (cleanLineOf line).isEmpty

/-- Condition of src/main.py:101:
`len(clean_line) < 60 and (line.startswith('#') or line.startswith('**'))`
— note it inspects the raw, unstripped `line`. -/
def headingCond (line : List Char) : Bool :=
  decide ((cleanLineOf line).length < 60) &&
    (['#'].isPrefixOf line || ['*', '*'].isPrefixOf line)

/-- Condition of src/main.py:106:
`line.strip().startswith('-') or line.strip().startswith('*')`. -/
def bulletCond (line : List Char) : Bool :=
  ['-'].isPrefixOf (stripList line) || ['*'].isPrefixOf (stripList line)

/-- The `if`/`elif` chain of src/main.py:92-117 as a classification:
first matching test wins. -/
def classifyLine (line : List Char) : LineClass :=
  if skipCond line then .skip
  else if blankCond line then .blank
  else if headingCond line then .heading
  else if bulletCond line then .bullet
  else .paragraph

/-- `content = clean_line.lstrip('-').lstrip('*').strip()`
(src/main.py:111). -/
def bulletContent (cleanLine : List Char) : List Char :=
  stripList (lstripChar '*' (lstripChar '-' cleanLine))

/-- `chr(149)`, the bullet glyph prepended at src/main.py:112. -/
def bulletGlyph : Char := Char.ofNat 149

/-- One FPDF layout call issued by the renderer.  `ln` is `pdf.ln(mm)`;
`titleCell h txt` is the `cell(0, h, txt, 0, 1, ...)` of
`chapter_title`; `multiCell h txt` is `multi_cell(0, h, txt)`;
`cellIndent w` is the bare `cell(w)` indent of the bullet branch. -/
inductive POp where
  | ln (mm : Nat)
  | setFont (family style : String) (size : Nat)
  | setTextColor (r g b : Nat)
  | cellIndent (w : Nat)
  | titleCell (h : Nat) (txt : String)
  | multiCell (h : Nat) (txt : String)
deriving DecidableEq, Repr

/-- `PDFReport.chapter_title` (src/main.py:67-72). -/
def chapter_title (label : String) : List POp :=
  [.setFont "Arial" "B" 12, .setTextColor 0 51 102,
   .titleCell 8 label, .ln 1]

/-- `PDFReport.body_text` (src/main.py:74-79). -/
def body_text (text : String) : List POp :=
  [.setFont "Arial" "" 10, .setTextColor 50 50 50,
   .multiCell 5 text, .ln 3]

/-- The layout calls issued for one line of input by the loop body of
`create_pdf_report` (src/main.py:88-117): `continue` with no call for a
skipped line, `pdf.ln(2)` for a blank line, and the heading, bullet and
paragraph emissions otherwise. -/
def lineOps (line : List Char) : List POp :=
  match classifyLine line with
  | .skip => []
  | .blank => [.ln 2]
  | .heading => .ln 3 :: chapter_title (String.mk (cleanLineOf line))
  | .bullet =>
      [.setFont "Arial" "" 10, .setTextColor 50 50 50, .cellIndent 5,
       .multiCell 5
         (String.mk (bulletGlyph :: ' ' :: bulletContent (cleanLineOf line))),
       .ln 1]
  | .paragraph => body_text (String.mk (cleanLineOf line))

/-- A rendered content block (the block-level view of the same loop):
headings, bullets and paragraphs produce visible content; skipped and
blank lines produce none. -/
inductive Block where
  | heading (txt : String)
  | bullet (txt : String)
  | paragraph (txt : String)
deriving DecidableEq, Repr

/-- The content block (if any) a single input line contributes.  The
bullet text is the full `multi_cell` payload: the bullet glyph, a space,
then the stripped content (src/main.py:112). -/
def lineBlock (line : List Char) : Option Block :=
  match classifyLine line with
  | .skip => none
  | .blank => none
  | .heading => some (.heading (String.mk (cleanLineOf line)))
  | .bullet =>
      some (.bullet
        (String.mk (bulletGlyph :: ' ' :: bulletContent (cleanLineOf line))))
  | .paragraph => some (.paragraph (String.mk (cleanLineOf line)))

/-- Python `raw_text.split('\n')` (src/main.py:86) on char lists: split at
every newline, keeping empty pieces. -/
def splitLines (s : List Char) : List (List Char) :=
  match s with
  | [] => [[]]
  | c :: rest =>
    if c = '\n' then [] :: splitLines rest
    else
      match splitLines rest with
      | l :: ls => (c :: l) :: ls
      | [] => [[c]]

/-- The `for line in lines` loop of `create_pdf_report`
(src/main.py:88-117): each line is processed once, in order. -/
def renderLoop : List (List Char) → List POp
  | [] => []
  | l :: ls => lineOps l ++ renderLoop ls

/-- `create_pdf_report` (src/main.py:81-120), modelled as the sequence of
layout calls it issues for `raw_text` (page setup and file output are the
surrounding fixed scaffolding). -/
def create_pdf_report (raw_text : String) : List POp :=
  renderLoop (splitLines raw_text.data)

/-- The block-level view of `create_pdf_report`: the visible content
blocks, in order. -/
def docBlocks (raw_text : String) : List Block :=
  (splitLines raw_text.data).filterMap lineBlock

/-- Python `str.isalnum` restricted to ASCII (the inputs exercised here
are ASCII; Python additionally accepts non-ASCII alphanumerics). -/
def pyIsAlnum (c : Char) : Bool := c.isAlphanum

/-- The filename sanitisation of `send_email_with_pdf`
(src/main.py:178):
`"".join([c for c in company_name if c.isalnum() or c==' ']).strip().replace(' ', '_')`. -/
def safe_name (company_name : String) : String :=
  String.mk
    (replaceList [' '] ['_']
      (stripList (company_name.data.filter (fun c => pyIsAlnum c || c == ' '))))

/-- `generate_ppc_strategy` (src/main.py:123-160) with the external
generation call abstracted as its outcome: on success the generated text
is returned, and the `except` branch (src/main.py:159-160) turns any
exception into the literal string
`f"Error generating strategy: {e}"` instead of propagating it. -/
def generate_ppc_strategy (result : Except String String) : String :=
  match result with
  | .ok text => text
  | .error e => "Error generating strategy: " ++ e

/-! ### Helper lemmas -/

theorem clean_for_pdf_data (x : String) :
    (clean_for_pdf x).data = latin1Filter (applyReplacements x.data) := by
  simp only [clean_for_pdf]

theorem mem_latin1Filter {c : Char} {s : List Char} (h : c ∈ latin1Filter s) :
    c.toNat ≤ 255 := by
  simp only [latin1Filter, List.mem_filter, decide_eq_true_eq] at h
  exact h.2

theorem latin1Filter_eq_self {s : List Char} (h : ∀ c ∈ s, c.toNat ≤ 255) :
    latin1Filter s = s := by
  unfold latin1Filter
  exact List.filter_eq_self.mpr (fun a ha => by simpa using h a ha)

theorem containsSub_subset {pat s : List Char} (h : containsSub pat s = true) :
    ∀ a ∈ pat, a ∈ s := by
  induction s with
  | nil =>
    simp only [containsSub, List.isEmpty_iff] at h
    subst h; intro a ha; cases ha
  | cons c rest ih =>
    simp only [containsSub, Bool.or_eq_true] at h
    intro a ha
    rcases h with h | h
    · exact ((List.isPrefixOf_iff_prefix.mp h).sublist.subset) ha
    · exact List.mem_cons_of_mem _ (ih h a ha)

theorem containsSub_of_mem {a : Char} {s : List Char} (h : a ∈ s) :
    containsSub [a] s = true := by
  induction s with
  | nil => cases h
  | cons c rest ih =>
    simp only [containsSub, Bool.or_eq_true]
    rcases List.mem_cons.mp h with rfl | h
    · exact Or.inl (by simp [List.isPrefixOf])
    · exact Or.inr (ih h)

theorem containsSub_eq_false {pat s : List Char} {a : Char}
    (hmem : a ∈ pat) (hnot : a ∉ s) : containsSub pat s = false := by
  cases h : containsSub pat s with
  | false => rfl
  | true => exact absurd (containsSub_subset h a hmem) hnot

theorem replaceFuel_eq_self {pat : List Char} (repl : List Char) :
    ∀ (fuel : Nat) (s : List Char), containsSub pat s = false →
      replaceFuel pat repl fuel s = s := by
  intro fuel
  induction fuel with
  | zero => intro s _; cases s <;> rfl
  | succ fuel ih =>
    intro s h
    cases s with
    | nil => rfl
    | cons c rest =>
      simp only [containsSub, Bool.or_eq_false_iff] at h
      simp only [replaceFuel, h.1, Bool.false_and, if_neg Bool.false_ne_true]
      exact congrArg (c :: ·) (ih rest h.2)

theorem replaceFuel_head {pat : List Char} (repl : List Char) {c : Char}
    (h : pat.head? ≠ some c) :
    ∀ (fuel : Nat) (rest : List Char),
      ∃ r, replaceFuel pat repl fuel (c :: rest) = c :: r := by
  intro fuel rest
  cases fuel with
  | zero => exact ⟨rest, rfl⟩
  | succ fuel =>
    cases pat with
    | nil => exact ⟨replaceFuel [] repl fuel rest, by simp [replaceFuel]⟩
    | cons p ps =>
      have hpc : (p == c) = false := by
        have hne : p ≠ c := fun he => h (by simp [he])
        simpa using hne
      exact ⟨replaceFuel (p :: ps) repl fuel rest,
        by simp [replaceFuel, List.isPrefixOf, hpc]⟩

theorem replaceList_eq_self {pat : List Char} (repl : List Char)
    {s : List Char} (h : containsSub pat s = false) :
    replaceList pat repl s = s :=
  replaceFuel_eq_self repl s.length s h

theorem replaceList_head {pat : List Char} (repl : List Char) {c : Char}
    (h : pat.head? ≠ some c) (rest : List Char) :
    ∃ r, replaceList pat repl (c :: rest) = c :: r :=
  replaceFuel_head repl h (c :: rest).length rest

theorem foldRepl_eq_self :
    ∀ (rs : List (List Char × List Char)) (s : List Char),
      (∀ pr ∈ rs, containsSub pr.1 s = false) →
      List.foldl (fun t pr => replaceList pr.1 pr.2 t) s rs = s := by
  intro rs
  induction rs with
  | nil => intro s _; rfl
  | cons pr rs ih =>
    intro s h
    have h1 := h pr (List.mem_cons_self pr rs)
    simp only [List.foldl_cons, replaceList_eq_self pr.2 h1]
    exact ih s (fun q hq => h q (List.mem_cons_of_mem _ hq))

theorem applyReplacements_eq_self {s : List Char}
    (h : ∀ pr ∈ replacements, containsSub pr.1 s = false) :
    applyReplacements s = s :=
  foldRepl_eq_self replacements s h

theorem foldRepl_head {c : Char} :
    ∀ (rs : List (List Char × List Char)),
      (∀ pr ∈ rs, pr.1.head? ≠ some c) →
      ∀ (rest : List Char),
        ∃ r, List.foldl (fun t pr => replaceList pr.1 pr.2 t) (c :: rest) rs
              = c :: r := by
  intro rs
  induction rs with
  | nil => exact fun _ rest => ⟨rest, rfl⟩
  | cons pr rs ih =>
    intro h rest
    obtain ⟨r1, hr1⟩ :=
      replaceList_head pr.2 (h pr (List.mem_cons_self pr rs)) rest
    simp only [List.foldl_cons, hr1]
    exact ih (fun q hq => h q (List.mem_cons_of_mem _ hq)) r1

theorem applyReplacements_head {c : Char} {rest : List Char}
    (h : ∀ pr ∈ replacements, pr.1.head? ≠ some c) :
    ∃ r, applyReplacements (c :: rest) = c :: r :=
  foldRepl_head replacements h rest

theorem mem_replaceFuel_single {c0 : Char} {repl : List Char} {a : Char} :
    ∀ (fuel : Nat) (s : List Char), s.length ≤ fuel →
      a ∈ replaceFuel [c0] repl fuel s → (a ∈ s ∧ a ≠ c0) ∨ a ∈ repl := by
  intro fuel
  induction fuel with
  | zero =>
    intro s hlen ha
    cases s with
    | nil => cases ha
    | cons c rest => simp at hlen
  | succ fuel ih =>
    intro s hlen ha
    cases s with
    | nil => cases ha
    | cons c rest =>
      by_cases hc : c0 = c
      · subst hc
        have hrw : replaceFuel [c0] repl (fuel + 1) (c0 :: rest)
            = repl ++ replaceFuel [c0] repl fuel rest := by
          simp [replaceFuel, List.isPrefixOf]
        rw [hrw] at ha
        rcases List.mem_append.mp ha with ha | ha
        · exact Or.inr ha
        · rcases ih rest (Nat.le_of_succ_le_succ hlen) ha with ⟨h1, h2⟩ | h
          · exact Or.inl ⟨List.mem_cons_of_mem _ h1, h2⟩
          · exact Or.inr h
      · have hbc : (c0 == c) = false := by simpa using hc
        have hrw : replaceFuel [c0] repl (fuel + 1) (c :: rest)
            = c :: replaceFuel [c0] repl fuel rest := by
          simp [replaceFuel, List.isPrefixOf, hbc]
        rw [hrw] at ha
        rcases List.mem_cons.mp ha with rfl | ha
        · exact Or.inl ⟨List.mem_cons_self _ _, fun h => hc h.symm⟩
        · rcases ih rest (Nat.le_of_succ_le_succ hlen) ha with ⟨h1, h2⟩ | h
          · exact Or.inl ⟨List.mem_cons_of_mem _ h1, h2⟩
          · exact Or.inr h

theorem mem_rtrim {p : Char → Bool} {a : Char} :
    ∀ {s : List Char}, a ∈ rtrim p s → a ∈ s := by
  intro s
  induction s with
  | nil => intro h; cases h
  | cons c rest ih =>
    intro h
    simp only [rtrim] at h
    by_cases hcond : ((rtrim p rest).isEmpty && p c) = true
    · rw [if_pos hcond] at h; cases h
    · rw [if_neg hcond] at h
      rcases List.mem_cons.mp h with rfl | h
      · exact List.mem_cons_self _ _
      · exact List.mem_cons_of_mem _ (ih h)

theorem mem_dropWhile {p : Char → Bool} {a : Char} :
    ∀ {s : List Char}, a ∈ s.dropWhile p → a ∈ s := by
  intro s
  induction s with
  | nil => intro h; cases h
  | cons c rest ih =>
    intro h
    rw [List.dropWhile_cons] at h
    by_cases hc : p c = true
    · rw [if_pos hc] at h; exact List.mem_cons_of_mem _ (ih h)
    · rw [if_neg hc] at h; exact h

theorem mem_stripList {a : Char} {s : List Char} (h : a ∈ stripList s) :
    a ∈ s :=
  mem_dropWhile (mem_rtrim h)

theorem rtrim_eq_self {p : Char → Bool} :
    ∀ {s : List Char}, (∀ c ∈ s, p c = false) → rtrim p s = s := by
  intro s
  induction s with
  | nil => intro _; rfl
  | cons c rest ih =>
    intro h
    simp only [rtrim, ih (fun d hd => h d (List.mem_cons_of_mem _ hd)),
      h c (List.mem_cons_self _ _), Bool.and_false, if_neg Bool.false_ne_true]

theorem stripList_eq_self {s : List Char}
    (h : ∀ c ∈ s, pyIsSpace c = false) : stripList s = s := by
  unfold stripList
  cases s with
  | nil => rfl
  | cons c rest =>
    rw [List.dropWhile_cons, if_neg (by simp [h c (List.mem_cons_self _ _)])]
    exact rtrim_eq_self h

theorem stripList_cons_not_space {c : Char} {rest : List Char}
    (h : pyIsSpace c = false) :
    stripList (c :: rest) = c :: rtrim pyIsSpace rest := by
  unfold stripList
  rw [List.dropWhile_cons, if_neg (by simp [h])]
  simp only [rtrim, h, Bool.and_false, if_neg Bool.false_ne_true]

theorem cleanLineOf_replicate_dash (n : Nat) :
    cleanLineOf (List.replicate n '-') = List.replicate n '-' := by
  have hmem : ∀ c ∈ List.replicate n '-', c = '-' :=
    fun c hc => (List.mem_replicate.mp hc).2
  have hstrip : stripList (List.replicate n '-') = List.replicate n '-' :=
    stripList_eq_self (fun c hc => by rw [hmem c hc]; rfl)
  have happ : applyReplacements (List.replicate n '-') = List.replicate n '-' := by
    apply applyReplacements_eq_self
    have hpat : ∀ pr ∈ replacements, pr.1.headD ' ' ≠ '-' ∧ pr.1 ≠ [] := by
      decide
    intro pr hpr
    obtain ⟨hh, hne⟩ := hpat pr hpr
    cases hp : pr.1 with
    | nil => exact absurd hp hne
    | cons c0 t =>
      have hc0 : c0 ≠ '-' := by rw [hp] at hh; simpa using hh
      refine containsSub_eq_false (a := c0) ?_ ?_
      · exact List.mem_cons_self _ _
      · exact fun hcon => hc0 (hmem c0 hcon)
  unfold cleanLineOf
  rw [hstrip, happ]
  exact latin1Filter_eq_self (fun c hc => by rw [hmem c hc]; decide)

theorem classifyLine_replicate_dash {n : Nat} (h3 : 3 ≤ n) :
    classifyLine (List.replicate n '-') = LineClass.skip := by
  obtain ⟨k, rfl⟩ := Nat.le.dest h3
  have hcontains :
      containsSub ['-', '-', '-'] (List.replicate (3 + k) '-') = true := by
    have hsplit : List.replicate (3 + k) '-'
        = ['-', '-', '-'] ++ List.replicate k '-' := by
      rw [List.replicate_add]
      rfl
    rw [hsplit]
    simp [containsSub, List.isPrefixOf]
  have hskip : skipCond (List.replicate (3 + k) '-') = true := by
    unfold skipCond
    rw [cleanLineOf_replicate_dash, hcontains]
    rfl
  unfold classifyLine
  rw [hskip]
  rfl

theorem classifyLine_pipe {line : List Char} (h : line.head? = some '|') :
    classifyLine line = LineClass.skip := by
  cases line with
  | nil => cases h
  | cons c rest =>
    have hc : c = '|' := by simpa using h
    subst hc
    have hclean : ∃ r, cleanLineOf ('|' :: rest) = '|' :: r := by
      unfold cleanLineOf
      rw [stripList_cons_not_space (by decide)]
      obtain ⟨r1, hr1⟩ :=
        @applyReplacements_head '|' (rtrim pyIsSpace rest) (by decide)
      rw [hr1]
      exact ⟨latin1Filter r1, by
        unfold latin1Filter
        exact List.filter_cons_of_pos (by decide)⟩
    obtain ⟨r, hr⟩ := hclean
    have hskip : skipCond ('|' :: rest) = true := by
      unfold skipCond
      rw [hr]
      simp [List.isPrefixOf]
    unfold classifyLine
    rw [hskip]
    rfl

/-! ### Claim theorems -/

/-- C1 counterexample: the pipe-delimited table content row `"| 1 | 2 |"`
is classified Skip, not Paragraph — the renderer drops every row beginning
with `|`, so the whole table of scenario 2 renders nothing. -/
theorem c1_table_rows_counterexample :
    classifyLine ("| 1 | 2 |".data) = LineClass.skip ∧
    classifyLine ("| 1 | 2 |".data) ≠ LineClass.paragraph ∧
    docBlocks "| A | B |\n|---|---|\n| 1 | 2 |" = [] :=
  ⟨by decide, by decide, by decide⟩

/-- C1 (amended): in a rendered document containing a Markdown table the
separator row is classified Skip, and every pipe-delimited row — content
rows included — is also classified Skip and contributes no content block;
in particular the table `"| A | B |\n|---|---|\n| 1 | 2 |"` renders no
blocks at all. -/
theorem c1_table_rows_amended :
    ∀ line : List Char, line.head? = some '|' →
      classifyLine line = LineClass.skip ∧ lineBlock line = none ∧
      docBlocks "| A | B |\n|---|---|\n| 1 | 2 |" = [] := by
  intro line h
  refine ⟨classifyLine_pipe h, ?_, by decide⟩
  simp [lineBlock, classifyLine_pipe h]

theorem c1_table_rows_amended_witness :
    classifyLine ("| A | B |".data) = LineClass.skip ∧
    lineBlock ("| A | B |".data) = none ∧
    docBlocks "| A | B |\n|---|---|\n| 1 | 2 |" = [] :=
  c1_table_rows_amended ("| A | B |".data) (by decide)

/-- C2 counterexample: for the input line `"--x"` (trimmed content starts
with `-`), the bullet branch strips BOTH leading `-` characters
(`lstrip('-')` removes the maximal run), rendering `"x"`, not `"-x"` as
the claim's "exactly one marker character" would require. -/
theorem c2_bullet_strip_counterexample :
    lineBlock ("--x".data)
        = some (Block.bullet (String.mk [bulletGlyph, ' ', 'x'])) ∧
    lineBlock ("--x".data)
        ≠ some (Block.bullet (String.mk [bulletGlyph, ' ', '-', 'x'])) :=
  ⟨by decide, by decide⟩

/-- C2 (amended): every input line whose trimmed content starts with `-`
or `*`, and which is not first captured by the Skip, Blank or Heading
tests, is classified Bullet; its rendered content is the sanitized line
with ALL leading `-` characters stripped, then all leading `*` characters,
then surrounding whitespace, prefixed by the bullet glyph. -/
theorem c2_bullet_strip_amended :
    ∀ line : List Char,
      bulletCond line = true → skipCond line = false →
      blankCond line = false → headingCond line = false →
      classifyLine line = LineClass.bullet ∧
      lineBlock line = some (Block.bullet (String.mk
        (bulletGlyph :: ' ' ::
          stripList (lstripChar '*' (lstripChar '-' (cleanLineOf line)))))) := by
  intro line hb hs hbl hh
  have hcl : classifyLine line = LineClass.bullet := by
    simp [classifyLine, hs, hbl, hh, hb]
  exact ⟨hcl, by simp [lineBlock, hcl, bulletContent]⟩

theorem c2_bullet_strip_amended_witness :
    classifyLine ("- Save 20% on spend".data) = LineClass.bullet ∧
    lineBlock ("- Save 20% on spend".data) = some (Block.bullet (String.mk
      (bulletGlyph :: ' ' ::
        stripList (lstripChar '*' (lstripChar '-'
          (cleanLineOf ("- Save 20% on spend".data))))))) :=
  c2_bullet_strip_amended ("- Save 20% on spend".data)
    (by decide) (by decide) (by decide) (by decide)

/-- C3 counterexample: the sanitizer is not idempotent: removing `"__"`
from `"*__*"` splices the two asterisks into a new `"**"` occurrence, so
the first pass yields `"**"` and a second pass yields `""`. -/
theorem c3_sanitize_idempotent_counterexample :
    clean_for_pdf (clean_for_pdf "*__*") ≠ clean_for_pdf "*__*" := by
  decide

/-- C3 (amended): the sanitizer is idempotent on every string whose
sanitized form contains none of the marker substrings `"**"`, `"__"`,
`"#"`, `` "`" `` (in general a marker removal, or the latin-1 drop, can
splice adjacent characters into a fresh marker occurrence that only a
second pass would remove). -/
theorem c3_sanitize_idempotent_amended :
    ∀ x : String,
      containsSub ['*', '*'] (clean_for_pdf x).data = false →
      containsSub ['_', '_'] (clean_for_pdf x).data = false →
      containsSub ['#'] (clean_for_pdf x).data = false →
      containsSub ['`'] (clean_for_pdf x).data = false →
      clean_for_pdf (clean_for_pdf x) = clean_for_pdf x := by
  intro x h1 h2 h3 h4
  have hle : ∀ c ∈ (clean_for_pdf x).data, c.toNat ≤ 255 := by
    intro c hc
    rw [clean_for_pdf_data] at hc
    exact mem_latin1Filter hc
  have hhash : ∀ pat : List Char, '#' ∈ pat →
      containsSub pat (clean_for_pdf x).data = false := by
    intro pat hpmem
    cases hcs : containsSub pat (clean_for_pdf x).data with
    | false => rfl
    | true =>
      have hin : '#' ∈ (clean_for_pdf x).data :=
        containsSub_subset hcs '#' hpmem
      rw [containsSub_of_mem hin] at h3
      cases h3
  have happ : applyReplacements (clean_for_pdf x).data = (clean_for_pdf x).data := by
    apply applyReplacements_eq_self
    intro pr hpr
    have hmoji : ∀ t : List Char,
        containsSub (Char.ofNat 0x201A :: t) (clean_for_pdf x).data = false := by
      intro t
      refine containsSub_eq_false (a := Char.ofNat 0x201A)
        (List.mem_cons_self _ _) ?_
      exact fun hmem => absurd (hle _ hmem) (by decide)
    simp only [replacements, List.mem_cons, List.not_mem_nil, or_false] at hpr
    rcases hpr with rfl | rfl | rfl | rfl | rfl | rfl | rfl |
      rfl | rfl | rfl | rfl | rfl | rfl
    · exact hmoji _
    · exact hmoji _
    · exact hmoji _
    · exact hmoji _
    · exact hmoji _
    · exact hmoji _
    · exact hmoji _
    · exact h1
    · exact h2
    · exact hhash _ (by decide)
    · exact hhash _ (by decide)
    · exact h3
    · exact h4
  apply String.ext
  rw [clean_for_pdf_data, happ, latin1Filter_eq_self hle]

theorem c3_sanitize_idempotent_amended_witness :
    clean_for_pdf (clean_for_pdf "Budget: 20% savings")
      = clean_for_pdf "Budget: 20% savings" :=
  c3_sanitize_idempotent_amended "Budget: 20% savings"
    (by decide) (by decide) (by decide) (by decide)

/-- C4 counterexample: on scenario 1 the heading block's rendered text is
NOT `"Executive Summary"`: stripping `"##"` and then `"#"` from
`"### Executive Summary"` leaves the space that followed the hashes, so
the rendered heading text is `" Executive Summary"`. -/
theorem c4_scenario1_counterexample :
    docBlocks "### Executive Summary\n- Save 20% on spend\nThis is a normal paragraph.\n"
      ≠ [Block.heading "Executive Summary",
         Block.bullet (String.mk (bulletGlyph :: ' ' :: "Save 20% on spend".data)),
         Block.paragraph "This is a normal paragraph."] := by
  decide

/-- C4 (amended): scenario 1 renders exactly three content blocks in
order — one Heading whose text is `" Executive Summary"` (the space left
by hash removal is retained), one Bullet `"Save 20% on spend"` prefixed by
the bullet glyph, and one Paragraph `"This is a normal paragraph."`. -/
theorem c4_scenario1_amended :
    docBlocks "### Executive Summary\n- Save 20% on spend\nThis is a normal paragraph.\n"
      = [Block.heading " Executive Summary",
         Block.bullet (String.mk (bulletGlyph :: ' ' :: "Save 20% on spend".data)),
         Block.paragraph "This is a normal paragraph."] := by
  decide

/-- C5 counterexample: the name `"Bob's Plumbing & Co."` yields
`"Bobs_Plumbing__Co"`: dropping `&` between two spaces leaves two
consecutive spaces, each of which becomes an underscore, so the identifier
contains a run of two separators, contrary to the claim. -/
theorem c5_safe_name_counterexample :
    safe_name "Bob's Plumbing & Co." = "Bobs_Plumbing__Co" ∧
    containsSub ['_', '_'] (safe_name "Bob's Plumbing & Co.").data = true :=
  ⟨by decide, by decide⟩

/-- C5 (amended): for every (ASCII) company name, the derived identifier
contains only alphanumeric characters and underscores — `'`, `&` and `.`
are removed — but each space becomes its own underscore, so consecutive
spaces produce consecutive separators (e.g. `"Bob's Plumbing & Co."` gives
`"Bobs_Plumbing__Co"`). -/
theorem c5_safe_name_amended :
    ∀ (name : String), (∀ c ∈ name.data, c.toNat < 128) →
      ∀ c ∈ (safe_name name).data, pyIsAlnum c = true ∨ c = '_' := by
  intro name _hascii c hc
  have hmem : c ∈ replaceFuel [' '] ['_']
      (stripList (name.data.filter (fun d => pyIsAlnum d || d == ' '))).length
      (stripList (name.data.filter (fun d => pyIsAlnum d || d == ' '))) := hc
  rcases mem_replaceFuel_single _ _ (Nat.le_refl _) hmem with ⟨h1, h2⟩ | h
  · have h3 := List.mem_filter.mp (mem_stripList h1)
    have h4 : pyIsAlnum c = true ∨ (c == ' ') = true := by
      simpa using h3.2
    rcases h4 with ha | hsp
    · exact Or.inl ha
    · exact absurd (by simpa using hsp) h2
  · exact Or.inr (by simpa using h)

theorem c5_safe_name_amended_witness :
    pyIsAlnum 'B' = true ∨ 'B' = '_' :=
  c5_safe_name_amended "Bob's Plumbing & Co." (by decide) 'B' (by decide)

/-- C6: a line consisting solely of `-` characters (length ≥ 3), and a
line starting with `|`, issue no layout call at all — in particular the
vertical cursor does not move — whereas a blank line issues `pdf.ln(2)`. -/
theorem c6_skip_is_noop :
    ∀ (line : List Char) (n : Nat),
      ((line = List.replicate n '-' ∧ 3 ≤ n) ∨ line.head? = some '|') →
      lineOps line = [] ∧ lineOps [] = [POp.ln 2] := by
  intro line n h
  refine ⟨?_, by decide⟩
  rcases h with ⟨rfl, hn⟩ | hp
  · simp [lineOps, classifyLine_replicate_dash hn]
  · simp [lineOps, classifyLine_pipe hp]

theorem c6_skip_is_noop_witness :
    lineOps ("---".data) = [] ∧ lineOps [] = [POp.ln 2] :=
  c6_skip_is_noop ("---".data) 3 (Or.inl ⟨by decide, by decide⟩)

/-- C7: classification is a total function tested in the fixed order
Skip → Blank → Heading → Bullet → Paragraph with the first matching test
winning, and one render pass processes each input line exactly once, in
order (the emitted call stream is the concatenation of each line's own
calls). -/
theorem c7_classification_order :
    ∀ (line : List Char) (lines : List (List Char)),
      (skipCond line = true → classifyLine line = LineClass.skip) ∧
      (skipCond line = false → blankCond line = true →
        classifyLine line = LineClass.blank) ∧
      (skipCond line = false → blankCond line = false →
        headingCond line = true → classifyLine line = LineClass.heading) ∧
      (skipCond line = false → blankCond line = false →
        headingCond line = false → bulletCond line = true →
        classifyLine line = LineClass.bullet) ∧
      (skipCond line = false → blankCond line = false →
        headingCond line = false → bulletCond line = false →
        classifyLine line = LineClass.paragraph) ∧
      renderLoop lines = (lines.map lineOps).flatten := by
  intro line lines
  refine ⟨?_, ?_, ?_, ?_, ?_, ?_⟩
  · intro h; simp [classifyLine, h]
  · intro h1 h2; simp [classifyLine, h1, h2]
  · intro h1 h2 h3; simp [classifyLine, h1, h2, h3]
  · intro h1 h2 h3 h4; simp [classifyLine, h1, h2, h3, h4]
  · intro h1 h2 h3 h4; simp [classifyLine, h1, h2, h3, h4]
  · induction lines with
    | nil => rfl
    | cons l ls ih => simp [renderLoop, ih]

theorem c7_classification_order_witness :
    classifyLine ("|sep".data) = LineClass.skip :=
  (c7_classification_order ("|sep".data) []).1 (by decide)

/-- C8: the sanitizer is a total function on strings — modelled as a plain
Lean function it returns a string on every input — and every character of
its output is latin-1 encodable (code point ≤ 255): unencodable characters
are dropped, as the concrete conjunct shows for U+1F600. -/
theorem c8_sanitizer_total :
    (∀ (s : String), ∀ c ∈ (clean_for_pdf s).data, c.toNat ≤ 255) ∧
    clean_for_pdf (String.mk [Char.ofNat 128512, 'a']) = "a" := by
  refine ⟨?_, by decide⟩
  intro s c hc
  rw [clean_for_pdf_data] at hc
  exact mem_latin1Filter hc

theorem c8_sanitizer_total_witness :
    ('R' : Char).toNat ≤ 255 :=
  c8_sanitizer_total.1 "Report" 'R' (by decide)

/-- C9: when the external generation call fails with any error `e`, the
function returns (not raises) the literal error text embedded in
`"Error generating strategy: "`, and that string flows through the
renderer in place of the report body — for a concrete error it renders as
an ordinary paragraph block. -/
theorem c9_generation_error_degraded :
    ∀ e : String,
      generate_ppc_strategy (Except.error e)
          = "Error generating strategy: " ++ e ∧
      docBlocks (generate_ppc_strategy (Except.error e))
          = docBlocks ("Error generating strategy: " ++ e) ∧
      docBlocks (generate_ppc_strategy (Except.error "model unavailable"))
          = [Block.paragraph "Error generating strategy: model unavailable"] :=
  fun e => ⟨rfl, rfl, by decide⟩

/-- C10: a non-string value passed to the sanitizer is returned as its
`str()` conversion immediately, bypassing replacement and encoding — so
the result can contain characters outside latin-1 (witnessed by an object
whose string form is U+1F600). -/
theorem c10_nonstring_bypass :
    (∀ v : PyVal, (∀ s, v ≠ PyVal.str s) → clean_for_pdf_dyn v = pyStr v) ∧
    (∃ c ∈ (clean_for_pdf_dyn (PyVal.obj (String.mk [Char.ofNat 128512]))).data,
      255 < c.toNat) := by
  constructor
  · intro v h
    cases v with
    | str s => exact absurd rfl (h s)
    | int n => rfl
    | obj _ => rfl
  · exact ⟨Char.ofNat 128512, by decide, by decide⟩

theorem c10_nonstring_bypass_witness :
    clean_for_pdf_dyn (PyVal.int 42) = pyStr (PyVal.int 42) :=
  c10_nonstring_bypass.1 (PyVal.int 42) (fun _ h => PyVal.noConfusion h)

end AdsTool
